import Mathlib

/-!
Verification of the m3u8 downloader's segment pipeline: a shallow embedding
of the validator, the decryptor, the per-segment fetch/retry loop, the
assembler and the batch driver, followed by theorems about the spec's claims.
-/

namespace M3u8

/-- A byte is modelled as a natural number (values 0..255 in practice). -/
abbrev Byte := Nat

/-- The content of a file on disk: `none` when the file does not exist or
cannot be opened, `some bytes` otherwise. -/
abbrev FileContent := Option (List Byte)

/-- Embedding of `utils::file::is_valid_ts_file` (src/utils/file.rs lines
10-23).  `utils/mod.rs` re-exports `file::*`, so this is the validator that
`M3u8Downloader::try_download_segment` actually invokes.  It opens the file,
performs `read_exact` into a `[0u8; 4]` buffer (which succeeds exactly when
the file holds at least 4 bytes) and accepts iff the first byte is the
MPEG-TS sync byte 0x47. -/
def is_valid_ts_file (f : FileContent) : Bool :=
  match f with
  | none => false
  | some bs => if bs.length < 4 then false else bs.headD 0 == 0x47

/-- Embedding of the alternate validator `utils::common::is_valid_ts_file`
(src/utils/common.rs lines 8-47).  `common` is not declared as a module in
`utils/mod.rs`, so this variant is dead code, unreachable from the
downloader.  It rejects a missing file, a file shorter than one 188-byte
TS packet, a file from which `188 * 2` bytes cannot be read (so any file
shorter than 376 bytes), and demands the sync byte 0x47 at offsets 0 and
188. -/
def common_is_valid_ts_file (f : FileContent) : Bool :=
  match f with
  | none => false
  | some bs =>
    if bs.length < 188 then false
    else if bs.length < 376 then false
    else (bs.getD 0 0 == 0x47) && (bs.getD 188 0 == 0x47)

/-! ## Decryptor -/

/-- External collaborator: single-block decryption of a 128-bit block cipher
(the `aes` crate's AES-128, reached through `cbc::Decryptor<Aes128>`).
First argument: the 16-byte key; second: a 16-byte ciphertext block; result:
the 16-byte decrypted block (before CBC chaining is undone). -/
abbrev BlockDec := List Byte → List Byte → List Byte

/-- `(segment_index as u128).to_be_bytes()` from
`decrypt_segment` (src/downloader/encryption.rs line 14): byte `i`, counted
from the most significant end, of the 128-bit value. -/
def u128_to_be_bytes (n : Nat) : List Byte :=
  (List.range 16).map (fun i => n / 256 ^ (15 - i) % 256)

/-- Modelled from the spec's words: "encode position as a 16-byte big-endian
unsigned integer", built most-significant-first by repeated division. -/
def be_encode : Nat → Nat → List Byte
  | 0, _ => []
  | w + 1, n => be_encode w (n / 256) ++ [n % 256]

/-- Split a byte list into consecutive 16-byte blocks; the fuel is an upper
bound on the number of blocks (the caller passes the list length). -/
def blocks16_go : Nat → List Byte → List (List Byte)
  | _, [] => []
  | 0, _ :: _ => []
  | fuel + 1, b :: bs => List.take 16 (b :: bs) :: blocks16_go fuel (List.drop 15 bs)

/-- Split a byte list into consecutive 16-byte blocks. -/
def blocks16 (l : List Byte) : List (List Byte) :=
  blocks16_go l.length l

/-- CBC chaining: each plaintext block is the block-decryption of its
ciphertext block XORed with the previous ciphertext block (the IV for the
first block). -/
def cbc_decrypt_blocks (dec : BlockDec) (key : List Byte) :
    List Byte → List (List Byte) → List (List Byte)
  | _, [] => []
  | prev, c :: cs =>
    List.zipWith Nat.xor (dec key c) prev :: cbc_decrypt_blocks dec key c cs

/-- CBC decryption of a whole buffer (length a multiple of 16). -/
def cbc_decrypt (dec : BlockDec) (key iv data : List Byte) : List Byte :=
  (cbc_decrypt_blocks dec key iv (blocks16 data)).flatten

/-- PKCS#7 unpadding as performed by the `cipher` crate's `Pkcs7`: read the
last byte `n`; fail when the buffer is empty, `n = 0` or `n > 16`, or the
last `n` bytes are not all equal to `n`; otherwise drop the last `n`
bytes. -/
def pkcs7_unpad (bs : List Byte) : Option (List Byte) :=
  match bs.getLast? with
  | none => none
  | some n =>
    if n = 0 ∨ 16 < n then none
    else if (bs.drop (bs.length - n)).all (fun b => b == n) then
      some (bs.take (bs.length - n))
    else none

/-- The `cipher` crate's `decrypt_padded_mut::<Pkcs7>` on a CBC decryptor:
fails (`UnpadError`) when the buffer length is not a multiple of the block
size, otherwise CBC-decrypts every block in place and strips PKCS#7 padding,
failing when the padding is invalid. -/
def decrypt_padded_pkcs7 (dec : BlockDec) (key iv data : List Byte) :
    Option (List Byte) :=
  if data.length % 16 ≠ 0 then none
  else pkcs7_unpad (cbc_decrypt dec key iv data)

/-- The decryptor's error taxonomy. -/
inductive DecError
  | invalidKeyLength
  | decryptionError
deriving DecidableEq

/-- Embedding of `decrypt_segment` (src/downloader/encryption.rs lines 7-26;
`M3u8Downloader::decrypt_segment` in src/utils/download_segment.rs lines
478-497 is byte-for-byte the same logic): reject a key whose length is not
16; build the IV by copying `(segment_index as u128).to_be_bytes()` into a
16-byte array; run AES-128-CBC decryption with PKCS#7 unpadding. -/
def decrypt_segment (dec : BlockDec) (data key : List Byte)
    (segment_index : Nat) : Except DecError (List Byte) :=
  if key.length ≠ 16 then .error .invalidKeyLength
  else
    match decrypt_padded_pkcs7 dec key (u128_to_be_bytes segment_index) data with
    | none => .error .decryptionError
    | some p => .ok p

/-- Modelled from the spec: "Initialization vector is derived
deterministically and exclusively from position: encode position as a
16-byte big-endian unsigned integer and use it directly as the IV", then
"a standard padded block-cipher decryption (128-bit block cipher,
cipher-block-chaining mode, PKCS#7-style unpadding)";
"Fails with InvalidKeyLength when key length ≠ 16 bytes". -/
def decrypt_spec (dec : BlockDec) (data key : List Byte)
    (position : Nat) : Except DecError (List Byte) :=
  if key.length = 16 then
    match decrypt_padded_pkcs7 dec key (be_encode 16 position) data with
    | some p => .ok p
    | none => .error .decryptionError
  else .error .invalidKeyLength

/-! ## Segment Fetcher

`M3u8Downloader::try_download_segment` and `M3u8Downloader::download_segment`
(src/utils/download_segment.rs lines 362-476) are stateful: they touch the
segment's file on disk, the shared `DownloadStats`, the HTTP client and the
retry sleep.  The state is embedded explicitly: the filesystem is projected
to the single slot holding the content of the segment's target path
(`download_dir.join(segment_filename)`), the shared stats to their two
counters, and the HTTP client to an oracle giving the outcome of each
successive network attempt.  Sleeps are recorded rather than performed;
progress-bar calls are display-only and not modelled.  `fs::remove_file` of
a corrupted segment is modelled as succeeding (the source logs and ignores
its error). -/

/-- Errors a single fetch attempt can produce. -/
inductive SegError
  | httpError (msg : String)
  | decError (e : DecError)
deriving DecidableEq

/-- The error returned by `download_segment` after exhausting its retries:
the segment index, the configured retry count and the last underlying
cause (the source formats these into an `anyhow` message). -/
structure FetchFailure where
  index : Nat
  retries : Nat
  cause : SegError
deriving DecidableEq

/-- The environment of one segment fetch: the network oracle (outcome of the
k-th HTTP attempt for this segment, counting from 0: an error for a failed
request or non-success status, or the body bytes), the optional AES key, and
the external AES block-decryption function. -/
structure SegEnv where
  net : Nat → Except String (List Byte)
  key : Option (List Byte)
  dec : BlockDec

/-- The mutable state threaded through one segment fetch. -/
structure SegState where
  file : FileContent
  completed_segments : Nat
  downloaded_bytes : Nat
  net_calls : Nat
  sleeps : List Nat
deriving DecidableEq

/-- The network-and-persist part of `try_download_segment` (src/utils/
download_segment.rs lines 449-475): issue the request (a transport error or
non-success status is an error, before any byte is counted), add the body
length to `downloaded_bytes`, decrypt when a key is present (the decryption
error propagates, after the bytes were already counted), and write the
resulting bytes to the segment's file. -/
def fetch_and_store (env : SegEnv) (index : Nat) (s : SegState) :
    Except SegError Unit × SegState :=
  let r := env.net s.net_calls
  let s1 := { s with net_calls := s.net_calls + 1 }
  match r with
  | .error e => (.error (.httpError e), s1)
  | .ok data =>
    let s2 := { s1 with downloaded_bytes := s1.downloaded_bytes + data.length }
    match env.key with
    | none => (.ok (), { s2 with file := some data })
    | some key_data =>
      match decrypt_segment env.dec data key_data index with
      | .error e => (.error (.decError e), s2)
      | .ok plain => (.ok (), { s2 with file := some plain })

/-- Embedding of `M3u8Downloader::try_download_segment` (src/utils/
download_segment.rs lines 413-476): if the segment's file exists and
`is_valid_ts_file` accepts it, return `Ok` at once (the source's comment
notes that `completed_segments` is deliberately not incremented here but by
`download_segment`, uniformly); if it exists but fails validation, delete it
and fall through to the network fetch; otherwise fetch. -/
def try_download_segment (env : SegEnv) (index : Nat) (s : SegState) :
    Except SegError Unit × SegState :=
  match s.file with
  | some content =>
    if is_valid_ts_file (some content) then (.ok (), s)
    else fetch_and_store env index { s with file := none }
  | none => fetch_and_store env index s

/-- The retry loop of `M3u8Downloader::download_segment` (src/utils/
download_segment.rs lines 362-411), recursing on the number of retries still
allowed.  `left` is `retry - (retry_count so far)`; `n` is the 1-based number
of the attempt about to be made.  On success the shared
`completed_segments` counter is incremented; on failure, when retries remain,
the source sleeps `1000ms * retry_count` (recorded in `sleeps`) and loops;
when they are exhausted it returns the failure carrying `self.retry` and the
last cause. -/
def download_segment_go (env : SegEnv) (index retry : Nat) :
    Nat → Nat → SegState → Except FetchFailure Unit × SegState
  | left, n, s =>
    match try_download_segment env index s with
    | (.ok _, s1) =>
      (.ok (), { s1 with completed_segments := s1.completed_segments + 1 })
    | (.error e, s1) =>
      match left with
      | 0 => (.error ⟨index, retry, e⟩, s1)
      | left1 + 1 =>
        download_segment_go env index retry left1 (n + 1)
          { s1 with sleeps := s1.sleeps ++ [1000 * n] }

/-- Embedding of `M3u8Downloader::download_segment`: run the retry loop with
`retry` retries still allowed, about to make attempt 1. -/
def download_segment (env : SegEnv) (index retry : Nat) (s : SegState) :
    Except FetchFailure Unit × SegState :=
  download_segment_go env index retry retry 1 s

/-! ## Assembler -/

/-- Split a character list at every `'/'` (the separators are dropped; an
empty run between two separators yields an empty component). -/
def split_on_slash : List Char → List (List Char)
  | [] => [[]]
  | c :: cs =>
    let rest := split_on_slash cs
    if c = '/' then [] :: rest
    else (c :: rest.headD []) :: rest.tail

/-- Rust's `Path::file_name` for Unix paths: the last component of the path,
ignoring empty components, a trailing slash and `.` components; `none` for
an empty path, a root path, or a path ending in `..`. -/
def rust_file_name (path : String) : Option String :=
  let comps := ((split_on_slash path.toList).map String.mk).filter
    (fun c => c ≠ "" && c ≠ ".")
  match comps.getLast? with
  | none => none
  | some c => if c = ".." then none else some c

/-- Rust's `format!("{:06}", n)`: decimal digits left-padded with zeros to
width 6. -/
def pad6 (n : Nat) : String :=
  let s := toString n
  String.mk (List.replicate (6 - s.length) '0') ++ s

/-- Embedding of `utils::common::get_segment_filename`, which is also the
expression inlined in `try_download_segment` and in
`M3u8Downloader::merge_segments`: the file name extracted from the segment
URI, with the zero-padded positional fallback `segment_{index:06}.ts`. -/
def get_segment_filename (segment_uri : String) (index : Nat) : String :=
  match rust_file_name segment_uri with
  | some name => name
  | none => "segment_" ++ pad6 index ++ ".ts"

/-- The concatenation loop of `M3u8Downloader::merge_segments` (src/utils/
download_segment.rs lines 508-528): walk the entries in manifest order,
derive each entry's file name the same way the fetcher did, fail on the
first missing file, and append each file's bytes to the temporary stream.
The filesystem is a map from file name (within `download_dir`) to content.
Returns the bytes written to the temporary `.ts` stream. -/
def merge_concat_go (fs : String → FileContent) :
    List String → Nat → Except String (List Byte)
  | [], _ => .ok []
  | uri :: rest, i =>
    match fs (get_segment_filename uri i) with
    | none => .error ("片段文件不存在: " ++ get_segment_filename uri i)
    | some bytes =>
      match merge_concat_go fs rest (i + 1) with
      | .error e => .error e
      | .ok tail => .ok (bytes ++ tail)

/-- The manifest-order concatenation, starting at index 0. -/
def merge_concat (fs : String → FileContent) (segments : List String) :
    Except String (List Byte) :=
  merge_concat_go fs segments 0

/-- Environment of `M3u8Downloader::merge_segments`: the per-segment
filesystem, the outcome of the external `ffmpeg` invocation (exit status and
captured standard error), and whether the two cleanup calls
(`fs::remove_file` of the temporary stream, `fs::remove_dir_all` of the
download directory) succeed. -/
structure MergeEnv where
  fs : String → FileContent
  ffmpeg_ok : Bool
  ffmpeg_stderr : String
  remove_temp_ok : Bool
  remove_dir_ok : Bool

/-- Decidable equality for `Except`, used to evaluate closed results. -/
instance instDecEqExcept {ε α : Type} [DecidableEq ε] [DecidableEq α] :
    DecidableEq (Except ε α) := fun x y =>
  match x, y with
  | .ok a, .ok b =>
    if h : a = b then isTrue (by rw [h])
    else isFalse (by intro hh; cases hh; exact h rfl)
  | .ok _, .error _ => isFalse (by intro hh; cases hh)
  | .error _, .ok _ => isFalse (by intro hh; cases hh)
  | .error e, .error f =>
    if h : e = f then isTrue (by rw [h])
    else isFalse (by intro hh; cases hh; exact h rfl)

/-- Observable outcome of `M3u8Downloader::merge_segments`: the returned
result, and whether the temporary stream and the per-segment download
directory were actually removed. -/
structure MergeOutcome where
  result : Except String Unit
  temp_removed : Bool
  dir_removed : Bool
deriving DecidableEq

/-- Embedding of the tail of `M3u8Downloader::merge_segments` (src/utils/
download_segment.rs lines 499-559): concatenate in manifest order, run
ffmpeg (a non-zero exit is an error carrying its stderr), then
`fs::remove_file(&temp_ts_path).map_err(..)?` — a failure here is returned
as an error — and finally `fs::remove_dir_all(&self.download_dir)`, whose
failure is only logged. -/
def mdl_merge_segments (env : MergeEnv) (segments : List String) :
    MergeOutcome :=
  match merge_concat env.fs segments with
  | .error e => { result := .error e, temp_removed := false, dir_removed := false }
  | .ok _ =>
    if env.ffmpeg_ok = false then
      { result := .error ("FFmpeg转换失败: " ++ env.ffmpeg_stderr),
        temp_removed := false, dir_removed := false }
    else if env.remove_temp_ok = false then
      { result := .error "删除临时文件失败", temp_removed := false,
        dir_removed := false }
    else
      { result := .ok (), temp_removed := true,
        dir_removed := env.remove_dir_ok }

/-! ## Batch driver -/

/-- The collection loop of `process_download_tasks` (src/utils/
download_segment.rs lines 91-109): every task is processed in order —
`process_download_task` is awaited for each one no matter how the previous
tasks fared — and its name is recorded in `successful_tasks` or, paired
with the formatted error, in `failed_tasks`.  `outcome i` is the result of
processing the i-th task. -/
def collect_go (outcome : Nat → Except String Unit) :
    List String → Nat → List String × List (String × String)
  | [], _ => ([], [])
  | t :: rest, i =>
    let tails := collect_go outcome rest (i + 1)
    match outcome i with
    | .ok _ => (t :: tails.1, tails.2)
    | .error e => (tails.1, (t, "任务 '" ++ t ++ "' 失败: " ++ e) :: tails.2)

/-- Embedding of `process_download_tasks` (src/utils/download_segment.rs
lines 79-137): process every task, then return the aggregate error exactly
when `failed_tasks.len() == tasks.len()`. -/
def process_download_tasks (outcome : Nat → Except String Unit)
    (tasks : List String) : Except String Unit :=
  let collected := collect_go outcome tasks 0
  if collected.2.length = tasks.length then .error "所有任务都失败了"
  else .ok ()

/-! ## Scheduler

`M3u8Downloader::download` (src/utils/download_segment.rs lines 278-299)
spawns one task per playlist segment; each task first acquires a permit from
a `tokio::sync::Semaphore` created with `self.concurrent` permits and holds
it for the whole `download_segment` call.  The concurrency discipline is
embedded as a step relation on the vector of per-task phases: a waiting task
may enter `running` only when a permit is free, i.e. when fewer than `limit`
tasks are running (each running task holds exactly one permit); a running
task may finish, releasing its permit. -/

/-- Phase of one spawned fetch task. -/
inductive TaskPhase
  | waiting
  | running
  | done
deriving DecidableEq

/-- Number of tasks currently inside `download_segment`, i.e. holding a
semaphore permit. -/
def runningCount (ts : List TaskPhase) : Nat :=
  ts.countP (fun p => p == TaskPhase.running)

/-- One scheduler transition under a semaphore of `limit` permits. -/
inductive SchedStep (limit : Nat) : List TaskPhase → List TaskPhase → Prop
  | start (l r : List TaskPhase)
      (hfree : runningCount (l ++ TaskPhase.waiting :: r) < limit) :
      SchedStep limit (l ++ TaskPhase.waiting :: r)
        (l ++ TaskPhase.running :: r)
  | finish (l r : List TaskPhase) :
      SchedStep limit (l ++ TaskPhase.running :: r)
        (l ++ TaskPhase.done :: r)

/-- States reachable from the initial state in which one task was created
per playlist entry, all waiting on the semaphore. -/
def SchedReachable (limit n : Nat) (ts : List TaskPhase) : Prop :=
  Relation.ReflTransGen (SchedStep limit) (List.replicate n TaskPhase.waiting) ts

/-! ## Theorems -/

/-- Unfolding of `be_encode` to an indexed map, most significant byte
first. -/
theorem be_encode_eq_map (w n : Nat) :
    be_encode w n = (List.range w).map (fun i => n / 256 ^ (w - 1 - i) % 256) := by
  induction w generalizing n with
  | zero => simp [be_encode]
  | succ w ih =>
    rw [be_encode, ih (n / 256), List.range_succ, List.map_append]
    have hmap : ∀ i ∈ List.range w,
        n / 256 / 256 ^ (w - 1 - i) % 256 = n / 256 ^ (w + 1 - 1 - i) % 256 := by
      intro i hi
      rw [List.mem_range] at hi
      rw [Nat.div_div_eq_div_mul]
      have hexp : 256 * 256 ^ (w - 1 - i) = 256 ^ (w + 1 - 1 - i) := by
        rw [← pow_succ']
        congr 1
        omega
      rw [hexp]
    rw [List.map_congr_left hmap]
    simp

/-- The source's IV construction equals the 16-byte big-endian encoding. -/
theorem u128_to_be_bytes_eq_be_encode (n : Nat) :
    u128_to_be_bytes n = be_encode 16 n := by
  rw [be_encode_eq_map]
  rfl

/-- C3: for every block-decryption function, every ciphertext, every key and
every position, the source's `decrypt_segment` coincides with the
spec-modelled decryptor: the IV is derived exclusively from the position,
encoded as a 16-byte big-endian unsigned integer (no random component, no
stored per-segment IV), followed by CBC block decryption and PKCS#7
unpadding; in particular the result depends only on the ciphertext, the key
and the position. -/
theorem decrypt_segment_eq_spec (dec : BlockDec) (data key : List Byte)
    (position : Nat) :
    decrypt_segment dec data key position = decrypt_spec dec data key position := by
  by_cases h : key.length = 16
  · simp only [decrypt_segment, decrypt_spec, u128_to_be_bytes_eq_be_encode, h,
      if_true, ne_eq, not_true_eq_false, if_false]
    cases decrypt_padded_pkcs7 dec key (be_encode 16 position) data <;> rfl
  · simp [decrypt_segment, decrypt_spec, h]

/-- C6: `decrypt_segment` fails with `invalidKeyLength` for every key whose
length is not 16, for every ciphertext, position and block cipher (so no
decryption is attempted: the outcome never consults them); for a 16-byte key
it fails with `decryptionError` exactly when the ciphertext length is not a
multiple of 16 or PKCS#7 unpadding of the CBC-decrypted buffer fails, and
otherwise returns the unpadded plaintext. -/
theorem decrypt_error_characterization :
    (∀ (dec : BlockDec) (data key : List Byte) (idx : Nat), key.length ≠ 16 →
      decrypt_segment dec data key idx = .error .invalidKeyLength) ∧
    (∀ (dec : BlockDec) (data key : List Byte) (idx : Nat), key.length = 16 →
      ((decrypt_segment dec data key idx = .error .decryptionError ↔
        (data.length % 16 ≠ 0 ∨
          pkcs7_unpad (cbc_decrypt dec key (u128_to_be_bytes idx) data) = none)) ∧
       (∀ p, data.length % 16 = 0 →
          pkcs7_unpad (cbc_decrypt dec key (u128_to_be_bytes idx) data) = some p →
          decrypt_segment dec data key idx = .ok p))) := by
  constructor
  · intro dec data key idx h
    simp [decrypt_segment, h]
  · intro dec data key idx h
    constructor
    · by_cases hl : data.length % 16 = 0
      · simp only [decrypt_segment, decrypt_padded_pkcs7, h, hl]
        cases hp : pkcs7_unpad (cbc_decrypt dec key (u128_to_be_bytes idx) data) <;>
          simp [hp]
      · simp [decrypt_segment, decrypt_padded_pkcs7, h, hl]
    · intro p hl hp
      simp [decrypt_segment, decrypt_padded_pkcs7, h, hl, hp]

/-- Witness for the decryptor characterization: a 15-byte key is rejected
with `invalidKeyLength`; with the identity block cipher, a 16-byte full-pad
block decrypts to the empty plaintext. -/
theorem decrypt_error_characterization_witness :
    decrypt_segment (fun _ b => b) [] (List.replicate 15 0) 0 =
      .error .invalidKeyLength ∧
    decrypt_segment (fun _ b => b) (List.replicate 16 16) (List.replicate 16 0) 0 =
      .ok [] :=
  ⟨decrypt_error_characterization.1 (fun _ b => b) [] (List.replicate 15 0) 0
      (by decide),
   (decrypt_error_characterization.2 (fun _ b => b) (List.replicate 16 16)
      (List.replicate 16 0) 0 (by decide)).2 [] (by decide) (by decide)⟩

set_option maxRecDepth 4000 in
/-- C2 counterexample: a 188-byte file whose first byte is the sync marker
is shorter than two transport-stream packets (376 bytes), yet the validator
that the downloader actually uses (`utils::file::is_valid_ts_file`) accepts
it, contradicting "false for any file shorter than two transport-stream
packets". -/
theorem validator_accepts_short_file :
    (0x47 :: List.replicate 187 0).length < 376 ∧
    is_valid_ts_file (some (0x47 :: List.replicate 187 0)) = true := by
  constructor
  · rw [List.length_cons, List.length_replicate]
    omega
  · decide

/-- C2 (amended): the validator in use (`utils::file::is_valid_ts_file`)
returns false for a missing file, for any file shorter than 4 bytes (hence
for a zero-byte file), and for any file whose first byte is not 0x47; it
returns true for every file of at least 4 bytes whose first byte is 0x47
(in particular for a well-formed two-packet file).  The unused alternate
validator `utils::common::is_valid_ts_file` additionally satisfies the
original claim: false below 376 bytes, false when the first byte is not
0x47, true for a well-formed two-packet file with sync markers at both
packet starts. -/
theorem validator_characterization :
    is_valid_ts_file none = false ∧
    (∀ bs : List Byte, bs.length < 4 → is_valid_ts_file (some bs) = false) ∧
    (∀ (b : Byte) (bs : List Byte), b ≠ 0x47 →
      is_valid_ts_file (some (b :: bs)) = false) ∧
    (∀ bs : List Byte, 4 ≤ bs.length → bs.headD 0 = 0x47 →
      is_valid_ts_file (some bs) = true) ∧
    common_is_valid_ts_file none = false ∧
    (∀ bs : List Byte, bs.length < 376 →
      common_is_valid_ts_file (some bs) = false) ∧
    (∀ (b : Byte) (bs : List Byte), b ≠ 0x47 →
      common_is_valid_ts_file (some (b :: bs)) = false) ∧
    (∀ p q : List Byte, p.length = 188 → q.length = 188 → p.getD 0 0 = 0x47 →
      q.getD 0 0 = 0x47 → common_is_valid_ts_file (some (p ++ q)) = true) := by
  refine ⟨rfl, ?_, ?_, ?_, rfl, ?_, ?_, ?_⟩
  · intro bs h
    simp [is_valid_ts_file, h]
  · intro b bs h
    simp only [is_valid_ts_file, List.headD_cons]
    split
    · rfl
    · simpa using h
  · intro bs h1 h2
    simp only [is_valid_ts_file]
    rw [if_neg (Nat.not_lt.mpr h1)]
    simp only [beq_iff_eq]
    exact h2
  · intro bs h
    by_cases h188 : bs.length < 188
    · simp [common_is_valid_ts_file, h188]
    · simp [common_is_valid_ts_file, h188, h]
  · intro b bs h
    simp only [common_is_valid_ts_file]
    split
    · rfl
    · split
      · rfl
      · simp only [List.getD_cons_zero, Bool.and_eq_false_iff]
        left
        simpa using h
  · intro p q hp hq hhp hhq
    have hlen : (p ++ q).length = 376 := by
      simp [hp, hq]
    have hg0 : (p ++ q).getD 0 0 = 0x47 := by
      rw [List.getD_append]
      · exact hhp
      · omega
    have hg188 : (p ++ q).getD 188 0 = 0x47 := by
      rw [List.getD_append_right]
      · rw [hp]
        simpa using hhq
      · omega
    simp only [common_is_valid_ts_file]
    rw [if_neg (by omega), if_neg (by omega), hg0, hg188]
    rfl

/-- Witness for the amended validator characterization, with each part
applied at a concrete file. -/
theorem validator_characterization_witness :
    is_valid_ts_file (some [0, 0x47, 0x47, 0x47, 0x47]) = false ∧
    is_valid_ts_file (some [0x47, 0, 0, 0]) = true ∧
    common_is_valid_ts_file (some (List.replicate 200 0x47)) = false ∧
    common_is_valid_ts_file (some (List.replicate 376 0x47)) = true := by
  refine ⟨?_, ?_, ?_, ?_⟩
  · exact validator_characterization.2.2.1 0 [0x47, 0x47, 0x47, 0x47] (by decide)
  · exact validator_characterization.2.2.2.1 [0x47, 0, 0, 0] (by decide) (by decide)
  · exact validator_characterization.2.2.2.2.2.1 (List.replicate 200 0x47)
      (by rw [List.length_replicate]; omega)
  · have hsplit : List.replicate 376 (0x47 : Byte) =
        List.replicate 188 0x47 ++ List.replicate 188 0x47 := by
      rw [← List.replicate_add]
    rw [hsplit]
    exact validator_characterization.2.2.2.2.2.2.2
      (List.replicate 188 (0x47 : Byte)) (List.replicate 188 (0x47 : Byte))
      (by rw [List.length_replicate]) (by rw [List.length_replicate])
      (by decide) (by decide)

/-- C1 counterexample: a fetch of a segment whose file already exists and
passes validation returns success with no network call and no byte recorded,
but the completed-segment counter IS incremented (from 0 to 1), contradicting
"no increment of the completed-segment counter". -/
theorem skip_path_increments_completed :
    download_segment ⟨fun _ => .error "unreachable", none, fun _ b => b⟩ 0 4
        ⟨some [0x47, 0, 0, 0], 0, 0, 0, []⟩ =
      (.ok (), ⟨some [0x47, 0, 0, 0], 1, 0, 0, []⟩) := by
  decide

/-- C1 (amended): for every segment whose file already exists and is accepted
by the validator, the fetcher returns success immediately with no network
retrieval (`net_calls` unchanged) and no increment of bytes transferred, but
the completed-segment counter is still incremented — the retry wrapper
increments it for every successful attempt, the skip path included (the
source comments this is deliberate: "这里不增加 completed_segments，由
download_segment 统一处理").  If the existing file fails validation it is
deleted and the segment is re-fetched over the network, overwriting the
file. -/
theorem skip_and_refetch_characterization :
    (∀ (env : SegEnv) (index retry : Nat) (s : SegState) (c : List Byte),
      s.file = some c → is_valid_ts_file (some c) = true →
      download_segment env index retry s =
        (.ok (), { s with completed_segments := s.completed_segments + 1 })) ∧
    (∀ (env : SegEnv) (index retry : Nat) (s : SegState) (c data : List Byte),
      s.file = some c → is_valid_ts_file (some c) = false →
      env.net s.net_calls = .ok data → env.key = none →
      download_segment env index retry s =
        (.ok (), { s with file := some data,
                          completed_segments := s.completed_segments + 1,
                          downloaded_bytes := s.downloaded_bytes + data.length,
                          net_calls := s.net_calls + 1 })) := by
  constructor
  · intro env index retry s c hf hv
    obtain ⟨f, cs, db, nc, sl⟩ := s
    simp only [SegState.file] at hf
    subst hf
    simp [download_segment, download_segment_go, try_download_segment, hv]
  · intro env index retry s c data hf hv hnet hkey
    obtain ⟨f, cs, db, nc, sl⟩ := s
    simp only [SegState.file] at hf
    subst hf
    simp only [SegState.net_calls] at hnet
    simp [download_segment, download_segment_go, try_download_segment,
      fetch_and_store, hv, hnet, hkey]

/-- Witness for the skip/refetch characterization: one fetch hitting the
valid-file skip path, one overwriting an invalid file from the network. -/
theorem skip_and_refetch_witness :
    download_segment ⟨fun _ => .error "x", none, fun _ b => b⟩ 2 4
        ⟨some [0x47, 9, 9, 9], 5, 7, 3, []⟩ =
      (.ok (), ⟨some [0x47, 9, 9, 9], 6, 7, 3, []⟩) ∧
    download_segment ⟨fun _ => .ok [1, 2], none, fun _ b => b⟩ 2 4
        ⟨some [0, 0, 0, 0], 5, 7, 3, []⟩ =
      (.ok (), ⟨some [1, 2], 6, 9, 4, []⟩) := by
  constructor
  · exact skip_and_refetch_characterization.1
      ⟨fun _ => .error "x", none, fun _ b => b⟩ 2 4
      ⟨some [0x47, 9, 9, 9], 5, 7, 3, []⟩ [0x47, 9, 9, 9] rfl (by decide)
  · exact skip_and_refetch_characterization.2
      ⟨fun _ => .ok [1, 2], none, fun _ b => b⟩ 2 4
      ⟨some [0, 0, 0, 0], 5, 7, 3, []⟩ [0, 0, 0, 0] [1, 2] rfl (by decide) rfl rfl

/-- Running the retry loop when every attempt fails: with `left` retries
still allowed and about to make attempt `n`, it makes `left + 1` further
network calls, sleeps `1000 * n, 1000 * (n + 1), ...` between them, and ends
with the failure carrying the configured retry count and the last error. -/
theorem download_go_all_fail (env : SegEnv) (index retry : Nat)
    (errs : Nat → String) :
    ∀ (left n : Nat) (s : SegState), s.file = none →
    (∀ j, j ≤ left → env.net (s.net_calls + j) = .error (errs (s.net_calls + j))) →
    download_segment_go env index retry left n s =
      (.error ⟨index, retry, .httpError (errs (s.net_calls + left))⟩,
       { s with net_calls := s.net_calls + left + 1,
                sleeps := s.sleeps ++ (List.range left).map (fun i => 1000 * (n + i)) }) := by
  intro left
  induction left with
  | zero =>
    intro n s hf hnet
    have h0 := hnet 0 (Nat.le_refl 0)
    rw [Nat.add_zero] at h0
    simp [download_segment_go, try_download_segment, fetch_and_store, hf, h0]
  | succ l ih =>
    intro n s hf hnet
    have h0 := hnet 0 (Nat.zero_le _)
    rw [Nat.add_zero] at h0
    rw [download_segment_go]
    simp only [try_download_segment, fetch_and_store, hf, h0]
    rw [ih (n + 1) _ rfl ?_]
    · have hsl : [1000 * n] ++ (List.range l).map (fun i => 1000 * (n + 1 + i)) =
          (List.range (l + 1)).map (fun i => 1000 * (n + i)) := by
        rw [List.range_succ_eq_map, List.map_cons, List.map_map,
          List.singleton_append]
        congr 1
        apply List.map_congr_left
        intro i _
        simp only [Function.comp_apply]
        congr 1
        omega
      simp only [SegState.net_calls, SegState.sleeps]
      rw [show s.net_calls + 1 + l = s.net_calls + (l + 1) by omega,
        List.append_assoc, hsl]
    · intro j hj
      simp only [SegState.net_calls]
      have := hnet (j + 1) (by omega)
      rw [show s.net_calls + 1 + j = s.net_calls + (j + 1) by omega]
      exact this

/-- Running the retry loop when attempts `n .. n+f-1` fail and attempt
`n+f` succeeds, with `f` within the allowed retries: it makes `f + 1`
network calls, records `f` backoff sleeps, persists the body and increments
the completed counter. -/
theorem download_go_succeed (env : SegEnv) (index retry : Nat)
    (errs : Nat → String) (data : List Byte) :
    ∀ (f left n : Nat) (s : SegState), s.file = none → env.key = none →
    f ≤ left →
    (∀ j, j < f → env.net (s.net_calls + j) = .error (errs (s.net_calls + j))) →
    env.net (s.net_calls + f) = .ok data →
    download_segment_go env index retry left n s =
      (.ok (), { s with file := some data,
                        completed_segments := s.completed_segments + 1,
                        downloaded_bytes := s.downloaded_bytes + data.length,
                        net_calls := s.net_calls + f + 1,
                        sleeps := s.sleeps ++ (List.range f).map (fun i => 1000 * (n + i)) }) := by
  intro f
  induction f with
  | zero =>
    intro left n s hf hk _ _ hok
    rw [Nat.add_zero] at hok
    simp [download_segment_go, try_download_segment, fetch_and_store, hf, hk, hok]
  | succ f ih =>
    intro left n s hf hk hle hfail hok
    obtain ⟨l, rfl⟩ : ∃ l, left = l + 1 := ⟨left - 1, by omega⟩
    have h0 := hfail 0 (Nat.succ_pos _)
    rw [Nat.add_zero] at h0
    rw [download_segment_go]
    simp only [try_download_segment, fetch_and_store, hf, h0]
    rw [ih l (n + 1) _ rfl hk (by omega) ?_ ?_]
    · have hsl : [1000 * n] ++ (List.range f).map (fun i => 1000 * (n + 1 + i)) =
          (List.range (f + 1)).map (fun i => 1000 * (n + i)) := by
        rw [List.range_succ_eq_map, List.map_cons, List.map_map,
          List.singleton_append]
        congr 1
        apply List.map_congr_left
        intro i _
        simp only [Function.comp_apply]
        congr 1
        omega
      simp only [SegState.net_calls, SegState.sleeps, SegState.file,
        SegState.completed_segments, SegState.downloaded_bytes]
      rw [show s.net_calls + 1 + f = s.net_calls + (f + 1) by omega,
        List.append_assoc, hsl]
    · intro j hj
      simp only [SegState.net_calls]
      have := hfail (j + 1) (by omega)
      rw [show s.net_calls + 1 + j = s.net_calls + (j + 1) by omega]
      exact this
    · simp only [SegState.net_calls]
      rw [show s.net_calls + 1 + f = s.net_calls + (f + 1) by omega]
      exact hok

/-- C4: a segment whose every attempt fails performs exactly `r + 1` network
attempts (the initial attempt plus `r` retries), waits `1000ms * attempt
number` between attempts (sleeps `1000*1, ..., 1000*r`), and returns a
failure carrying the configured retry count and the last underlying cause;
a segment that succeeds on attempt `k ≤ r` performs exactly `k - 1` retries
(sleeps `1000*1, ..., 1000*(k-1)`, `k` network calls) and returns
success. -/
theorem retry_backoff_characterization :
    (∀ (env : SegEnv) (index r : Nat) (s : SegState) (errs : Nat → String),
      s.file = none → s.net_calls = 0 →
      (∀ j, j ≤ r → env.net j = .error (errs j)) →
      download_segment env index r s =
        (.error ⟨index, r, .httpError (errs r)⟩,
         { s with net_calls := r + 1,
                  sleeps := s.sleeps ++
                    (List.range r).map (fun i => 1000 * (1 + i)) })) ∧
    (∀ (env : SegEnv) (index r k : Nat) (s : SegState) (errs : Nat → String)
        (data : List Byte),
      s.file = none → s.net_calls = 0 → env.key = none →
      1 ≤ k → k ≤ r →
      (∀ j, j < k - 1 → env.net j = .error (errs j)) →
      env.net (k - 1) = .ok data →
      download_segment env index r s =
        (.ok (), { s with file := some data,
                          completed_segments := s.completed_segments + 1,
                          downloaded_bytes := s.downloaded_bytes + data.length,
                          net_calls := k,
                          sleeps := s.sleeps ++
                            (List.range (k - 1)).map (fun i => 1000 * (1 + i)) })) := by
  constructor
  · intro env index r s errs hf hnc hnet
    unfold download_segment
    rw [download_go_all_fail env index r errs r 1 s hf ?_]
    · rw [hnc, Nat.zero_add]
    · intro j hj
      rw [hnc, Nat.zero_add]
      exact hnet j hj
  · intro env index r k s errs data hf hnc hk h1 hkr hfail hok
    unfold download_segment
    rw [download_go_succeed env index r errs data (k - 1) r 1 s hf hk (by omega)
      ?_ ?_]
    · rw [hnc, Nat.zero_add, show k - 1 + 1 = k by omega]
    · intro j hj
      rw [hnc, Nat.zero_add]
      exact hfail j hj
    · rw [hnc, Nat.zero_add]
      exact hok

/-- Witness for the retry characterization: with retry limit 2 and every
attempt failing, 3 network calls, sleeps 1000 and 2000, failure carrying 2
and the last error; with retry limit 4 and success on attempt 2, one sleep
of 1000 and a persisted body. -/
theorem retry_backoff_witness :
    download_segment ⟨fun k => .error (toString k), none, fun _ b => b⟩ 7 2
        ⟨none, 0, 0, 0, []⟩ =
      (.error ⟨7, 2, .httpError "2"⟩, ⟨none, 0, 0, 3, [1000, 2000]⟩) ∧
    download_segment ⟨fun k => if k = 0 then .error "e" else .ok [9, 9], none,
        fun _ b => b⟩ 7 4 ⟨none, 0, 0, 0, []⟩ =
      (.ok (), ⟨some [9, 9], 1, 2, 2, [1000]⟩) := by
  constructor
  · have h := retry_backoff_characterization.1
      ⟨fun k => .error (toString k), none, fun _ b => b⟩ 7 2 ⟨none, 0, 0, 0, []⟩
      (fun k => toString k) rfl rfl (fun j _ => rfl)
    simpa using h
  · have h := retry_backoff_characterization.2
      ⟨fun k => if k = 0 then .error "e" else .ok [9, 9], none, fun _ b => b⟩
      7 4 2 ⟨none, 0, 0, 0, []⟩ (fun _ => "e") [9, 9] rfl rfl rfl
      (by omega) (by omega)
      (by intro j hj
          have hj0 : j = 0 := by omega
          subst hj0
          rfl)
      rfl
    simpa using h

/-- The concatenation loop succeeds when every entry's file is present, and
returns exactly the per-entry bytes joined in entry order. -/
theorem merge_go_ok (fs : String → FileContent) (bytes : Nat → List Byte) :
    ∀ (uris : List String) (i0 : Nat),
    (∀ k, k < uris.length →
      fs (get_segment_filename (uris.getD k "") (i0 + k)) = some (bytes (i0 + k))) →
    merge_concat_go fs uris i0 =
      .ok (((List.range uris.length).map (fun k => bytes (i0 + k))).flatten) := by
  intro uris
  induction uris with
  | nil =>
    intro i0 _
    simp [merge_concat_go]
  | cons u us ih =>
    intro i0 h
    have h0 := h 0 (Nat.succ_pos _)
    simp only [List.getD_cons_zero, Nat.add_zero] at h0
    rw [merge_concat_go, h0, ih (i0 + 1) ?_]
    · have hjoin : (List.range (us.length + 1)).map (fun k => bytes (i0 + k)) =
          bytes (i0 + 0) :: (List.range us.length).map (fun k => bytes (i0 + 1 + k)) := by
        rw [List.range_succ_eq_map, List.map_cons, List.map_map]
        congr 1
        apply List.map_congr_left
        intro i _
        simp only [Function.comp_apply]
        congr 1
        omega
      simp only [List.length_cons, hjoin, List.flatten_cons, Nat.add_zero]
    · intro k hk
      have := h (k + 1) (by simpa using Nat.succ_lt_succ hk)
      simp only [List.getD_cons_succ] at this
      rw [show i0 + 1 + k = i0 + (k + 1) by omega]
      exact this

/-- C5: for every filesystem state and entry list, when each entry's
persisted segment file is present (under the fetcher's filename-derivation
rule), the assembler's concatenation step succeeds and its output stream is
exactly the per-entry bytes joined strictly in manifest order.  The result
is a function of the filesystem contents and the entry list alone: the order
in which segments finished downloading does not appear in the computation,
so any completion order yields this same output. -/
theorem merge_in_manifest_order (fs : String → FileContent)
    (bytes : Nat → List Byte) (uris : List String)
    (h : ∀ k, k < uris.length →
      fs (get_segment_filename (uris.getD k "") k) = some (bytes k)) :
    merge_concat fs uris = .ok (((List.range uris.length).map bytes).flatten) := by
  unfold merge_concat
  rw [merge_go_ok fs bytes uris 0 ?_]
  · simp
  · intro k hk
    rw [Nat.zero_add]
    exact h k hk

/-- Witness for manifest-order assembly: three entries whose files hold
`[1]`, `[2]`, `[3]` assemble to `[1, 2, 3]`. -/
theorem merge_in_manifest_order_witness :
    merge_concat
        (fun nm => if nm = "a.ts" then some [1]
          else if nm = "b.ts" then some [2]
          else if nm = "c.ts" then some [3] else none)
        ["a.ts", "b.ts", "c.ts"] = .ok [1, 2, 3] := by
  have h := merge_in_manifest_order
      (fun nm => if nm = "a.ts" then some [1]
        else if nm = "b.ts" then some [2]
        else if nm = "c.ts" then some [3] else none)
      (fun k => [k + 1]) ["a.ts", "b.ts", "c.ts"] (by decide)
  simpa using h

/-- C7 counterexample: with every segment file present and the ffmpeg
invocation succeeding, a failure of the cleanup call that removes the
temporary concatenated stream makes `merge_segments` return an error — the
source escalates it with `.map_err(..)?` — contradicting "assemble still
returns success when cleanup fails". -/
theorem merge_temp_cleanup_failure_escalates :
    (mdl_merge_segments
        ⟨fun nm => if nm = "a.ts" then some [0x47] else none, true, "", false, true⟩
        ["a.ts"]).result = .error "删除临时文件失败" := by
  rfl

/-- C7 (amended): after a successful concatenation and a successful external
transcode, `merge_segments` removes the intermediate stream and then the
whole per-segment download directory; a failure to remove the download
directory (the per-segment files) is only logged and the call still returns
success, but a failure to remove the intermediate temporary stream is
returned as an error; a failing transcode returns an error carrying its
diagnostic output. -/
theorem merge_cleanup_characterization :
    ∀ (env : MergeEnv) (segments : List String) (data : List Byte),
      merge_concat env.fs segments = .ok data →
      ((env.ffmpeg_ok = true → env.remove_temp_ok = true →
        mdl_merge_segments env segments =
          { result := .ok (), temp_removed := true,
            dir_removed := env.remove_dir_ok }) ∧
       (env.ffmpeg_ok = true → env.remove_temp_ok = false →
        (mdl_merge_segments env segments).result = .error "删除临时文件失败") ∧
       (env.ffmpeg_ok = false →
        (mdl_merge_segments env segments).result =
          .error ("FFmpeg转换失败: " ++ env.ffmpeg_stderr))) := by
  intro env segments data h
  refine ⟨?_, ?_, ?_⟩
  · intro h1 h2
    simp [mdl_merge_segments, h, h1, h2]
  · intro h1 h2
    simp [mdl_merge_segments, h, h1, h2]
  · intro h1
    simp [mdl_merge_segments, h, h1]

/-- Witness for the cleanup characterization: transcode succeeds, the
temporary stream is removed, removing the download directory fails, and the
call still returns success. -/
theorem merge_cleanup_witness :
    mdl_merge_segments
        ⟨fun nm => if nm = "a.ts" then some [7] else none, true, "", true, false⟩
        ["a.ts"] =
      { result := .ok (), temp_removed := true, dir_removed := false } :=
  (merge_cleanup_characterization
    ⟨fun nm => if nm = "a.ts" then some [7] else none, true, "", true, false⟩
    ["a.ts"] [7] (by decide)).1 rfl rfl

/-- Every task is recorded in exactly one of the two collection lists, and
the failed list fills up exactly when every task's outcome is a failure. -/
theorem collect_go_lengths (outcome : Nat → Except String Unit) :
    ∀ (tasks : List String) (i0 : Nat),
    (collect_go outcome tasks i0).1.length + (collect_go outcome tasks i0).2.length
        = tasks.length ∧
    ((collect_go outcome tasks i0).2.length = tasks.length ↔
      ∀ k, k < tasks.length → (outcome (i0 + k)).isOk = false) := by
  intro tasks
  induction tasks with
  | nil =>
    intro i0
    simp [collect_go]
  | cons t ts ih =>
    intro i0
    obtain ⟨ihlen, ihiff⟩ := ih (i0 + 1)
    cases hout : outcome i0 with
    | ok v =>
      simp only [collect_go, hout, List.length_cons]
      constructor
      · omega
      · constructor
        · intro hlen
          omega
        · intro hall
          have := hall 0 (Nat.succ_pos _)
          rw [Nat.add_zero, hout] at this
          simp [Except.isOk, Except.toBool] at this
    | error e =>
      simp only [collect_go, hout, List.length_cons]
      constructor
      · omega
      · constructor
        · intro hlen
          intro k hk
          cases k with
          | zero =>
            rw [Nat.add_zero, hout]
            rfl
          | succ k =>
            have hk2 : k < ts.length := by omega
            have := ihiff.mp (by omega) k hk2
            rw [show i0 + (k + 1) = i0 + 1 + k by omega]
            exact this
        · intro hall
          have : (collect_go outcome ts (i0 + 1)).2.length = ts.length := by
            apply ihiff.mpr
            intro k hk
            have := hall (k + 1) (by omega)
            rw [show i0 + 1 + k = i0 + (k + 1) by omega]
            exact this
          omega

/-- Each task's name is recorded in the successful list when its outcome is
a success and, paired with the formatted message, in the failed list when it
is a failure — regardless of how the other tasks fared. -/
theorem collect_go_mem (outcome : Nat → Except String Unit) :
    ∀ (tasks : List String) (i0 i : Nat), i < tasks.length →
    (∀ v, outcome (i0 + i) = .ok v →
      tasks.getD i "" ∈ (collect_go outcome tasks i0).1) ∧
    (∀ e, outcome (i0 + i) = .error e →
      (tasks.getD i "", "任务 '" ++ tasks.getD i "" ++ "' 失败: " ++ e) ∈
        (collect_go outcome tasks i0).2) := by
  intro tasks
  induction tasks with
  | nil =>
    intro i0 i hi
    simp at hi
  | cons t ts ih =>
    intro i0 i hi
    cases i with
    | zero =>
      constructor
      · intro v hv
        rw [Nat.add_zero] at hv
        simp [collect_go, hv]
      · intro e he
        rw [Nat.add_zero] at he
        simp [collect_go, he]
    | succ i =>
      have hi2 : i < ts.length := by simpa using hi
      obtain ⟨ihok, iherr⟩ := ih (i0 + 1) i hi2
      constructor
      · intro v hv
        rw [show i0 + (i + 1) = i0 + 1 + i by omega] at hv
        have hmem := ihok v hv
        simp only [List.getD_cons_succ, collect_go]
        cases houtcome : outcome i0 with
        | ok u => exact List.mem_cons_of_mem _ hmem
        | error f => exact hmem
      · intro e he
        rw [show i0 + (i + 1) = i0 + 1 + i by omega] at he
        have hmem := iherr e he
        simp only [List.getD_cons_succ, collect_go]
        cases houtcome : outcome i0 with
        | ok u => exact hmem
        | error f => exact List.mem_cons_of_mem _ hmem

/-- C8: `process_download_tasks` attempts every task in the batch — the two
outcome lists together record one entry per task, and each task's outcome is
recorded in the matching list no matter how the other tasks fared, so no
failure aborts or skips the remaining tasks — and the batch-level result is
the aggregate error exactly when every task in the batch failed, and success
otherwise. -/
theorem batch_failure_aggregation (outcome : Nat → Except String Unit)
    (tasks : List String) :
    (collect_go outcome tasks 0).1.length + (collect_go outcome tasks 0).2.length
        = tasks.length ∧
    (∀ i, i < tasks.length →
      (∀ v, outcome i = .ok v →
        tasks.getD i "" ∈ (collect_go outcome tasks 0).1) ∧
      (∀ e, outcome i = .error e →
        (tasks.getD i "", "任务 '" ++ tasks.getD i "" ++ "' 失败: " ++ e) ∈
          (collect_go outcome tasks 0).2)) ∧
    (process_download_tasks outcome tasks = .error "所有任务都失败了" ↔
      ∀ k, k < tasks.length → (outcome k).isOk = false) ∧
    (process_download_tasks outcome tasks = .ok () ↔
      ¬ ∀ k, k < tasks.length → (outcome k).isOk = false) := by
  obtain ⟨hlen, hiff⟩ := collect_go_lengths outcome tasks 0
  have hiff0 : (collect_go outcome tasks 0).2.length = tasks.length ↔
      ∀ k, k < tasks.length → (outcome k).isOk = false := by
    rw [hiff]
    constructor
    · intro h k hk
      have := h k hk
      rwa [Nat.zero_add] at this
    · intro h k hk
      rw [Nat.zero_add]
      exact h k hk
  refine ⟨hlen, ?_, ?_, ?_⟩
  · intro i hi
    have hmem := collect_go_mem outcome tasks 0 i hi
    simpa using hmem
  · rw [← hiff0]
    unfold process_download_tasks
    by_cases hc : (collect_go outcome tasks 0).2.length = tasks.length
    · simp [hc]
    · simp [hc]
  · rw [← hiff0]
    unfold process_download_tasks
    by_cases hc : (collect_go outcome tasks 0).2.length = tasks.length
    · simp [hc]
    · simp [hc]

/-- Witness for the aggregation: with two tasks both failing the batch
errors; with only the first failing it succeeds. -/
theorem batch_failure_aggregation_witness :
    process_download_tasks (fun _ => .error "e") ["a", "b"] =
      .error "所有任务都失败了" ∧
    process_download_tasks (fun i => if i = 0 then .error "e" else .ok ())
      ["a", "b"] = .ok () :=
  ⟨(batch_failure_aggregation (fun _ => .error "e") ["a", "b"]).2.2.1.mpr
      (by decide),
   (batch_failure_aggregation (fun i => if i = 0 then .error "e" else .ok ())
      ["a", "b"]).2.2.2.mpr (by decide)⟩

/-- C10: for the empty task list, `process_download_tasks` returns the
aggregate "all tasks failed" error (`所有任务都失败了`) although no task was
attempted and no task failed: the all-failed check `failed_tasks.len() ==
tasks.len()` reads `0 == 0` and is vacuously true.  This holds for every
outcome oracle since none is ever consulted. -/
theorem empty_batch_reports_all_failed (outcome : Nat → Except String Unit) :
    process_download_tasks outcome [] = .error "所有任务都失败了" := rfl

/-- The number of running tasks in the initial all-waiting state is zero. -/
theorem runningCount_replicate_waiting (n : Nat) :
    runningCount (List.replicate n TaskPhase.waiting) = 0 := by
  induction n with
  | zero => rfl
  | succ n ih =>
    rw [List.replicate_succ]
    simp only [runningCount, List.countP_cons] at ih ⊢
    simp [ih]

/-- Splicing a waiting task contributes nothing to the running count. -/
theorem runningCount_splice_waiting (l r : List TaskPhase) :
    runningCount (l ++ TaskPhase.waiting :: r) =
      runningCount l + runningCount r := by
  simp only [runningCount, List.countP_append, List.countP_cons]
  simp

/-- Splicing a finished task contributes nothing to the running count. -/
theorem runningCount_splice_done (l r : List TaskPhase) :
    runningCount (l ++ TaskPhase.done :: r) =
      runningCount l + runningCount r := by
  simp only [runningCount, List.countP_append, List.countP_cons]
  simp

/-- Splicing a running task contributes one to the running count. -/
theorem runningCount_splice_running (l r : List TaskPhase) :
    runningCount (l ++ TaskPhase.running :: r) =
      runningCount l + runningCount r + 1 := by
  simp only [runningCount, List.countP_append, List.countP_cons]
  simp
  omega

/-- C9: the scheduler spawns one fetch task per playlist entry, and in every
state reachable from the initial all-waiting state under the semaphore
discipline, at most `limit` tasks are running concurrently — a waiting task
may start only while fewer than `limit` permits are taken, so excess tasks
wait until a slot frees. -/
theorem scheduler_respects_limit (entries : List String) (limit : Nat) :
    ∀ ts : List TaskPhase, SchedReachable limit entries.length ts →
      runningCount ts ≤ limit := by
  intro ts h
  unfold SchedReachable at h
  induction h with
  | refl =>
    rw [runningCount_replicate_waiting]
    exact Nat.zero_le _
  | tail hsteps hstep ih =>
    cases hstep with
    | start l r hfree =>
      rw [runningCount_splice_waiting] at hfree
      rw [runningCount_splice_running]
      omega
    | finish l r =>
      rw [runningCount_splice_running] at ih
      rw [runningCount_splice_done]
      omega

/-- Witness for the concurrency bound: with three entries and limit 2, the
state with one running and two waiting tasks is reachable and within the
bound. -/
theorem scheduler_respects_limit_witness :
    runningCount [TaskPhase.running, TaskPhase.waiting, TaskPhase.waiting] ≤ 2 := by
  apply scheduler_respects_limit ["a", "b", "c"] 2
  unfold SchedReachable
  apply Relation.ReflTransGen.single
  have h : SchedStep 2
      ([] ++ TaskPhase.waiting :: [TaskPhase.waiting, TaskPhase.waiting])
      ([] ++ TaskPhase.running :: [TaskPhase.waiting, TaskPhase.waiting]) :=
    SchedStep.start [] [TaskPhase.waiting, TaskPhase.waiting] (by decide)
  simpa using h

end M3u8
